import Mathlib

/-!
Verification development for the MotoEvento guest-management repository.

The definitions below are a shallow embedding of the data-handling code of
the repository: the column orderer and guest-table logic of the two
GuestTable variants, the CSV upload and persistence logic of CSVUploader,
and the search/filter/display logic.  JavaScript strings are modelled as
Lean strings; the JavaScript string operations used by the code
(toLowerCase, trim, includes) are modelled by executable functions over the
underlying character lists.  The lower-casing model covers the ASCII range,
which agrees with the JavaScript behaviour on every string the code and the
claims exercise.
-/

namespace MotoEvento

/-- Model of the JavaScript `String.prototype.toLowerCase` (ASCII range). -/
def jsToLower (s : String) : String :=
  ⟨s.data.map Char.toLower⟩

/-- Whitespace test used by the model of `String.prototype.trim`. -/
def isSpaceChar (c : Char) : Bool :=
  c == ' ' || c == '\t' || c == '\n' || c == '\r'

/-- Model of the JavaScript `String.prototype.trim`. -/
def jsTrim (s : String) : String :=
  ⟨((s.data.dropWhile isSpaceChar).reverse.dropWhile isSpaceChar).reverse⟩

/-- Tests whether the second list occurs at the head of the first. -/
def beginsWith : List Char → List Char → Bool
  | _, [] => true
  | [], _ :: _ => false
  | a :: as, b :: bs => a == b && beginsWith as bs

/-- Tests whether `pat` occurs contiguously inside `s`. -/
def containsSeq : List Char → List Char → Bool
  | [], pat => beginsWith [] pat
  | c :: rest, pat => beginsWith (c :: rest) pat || containsSeq rest pat

/-- Model of the JavaScript `a.includes(b)` substring test. -/
def includesJS (a b : String) : Bool :=
  containsSeq a.data b.data

/-- Model of the JavaScript `Array.prototype.includes` on string arrays,
and of `Set.prototype.has` on string sets (both are equality membership). -/
def memberStr (l : List String) (x : String) : Bool :=
  l.any (fun y => y == x)

/-! ## Column Orderer (GuestTable, both variants)

Embedding of `getOrderedHeaders` from the two GuestTable implementations.
Both variants share the fixed preferred-order list and the exact-match and
remainder passes; they differ only in the condition of the fuzzy pass. -/

/-- The fixed preferred ordering (`desiredOrder`) hard-coded in both
GuestTable variants. -/
def desiredOrder : List String :=
  [ "DNI"
  , "Apellido"
  , "Nombre"
  , "Apellido y Nombre"
  , "Grupo sanguíneo"
  , "Teléfono"
  , "Venís acompañado"
  , "Apellido y Nombre del acompañante"
  , "DNI Acompañante"
  , "Contacto de Emergencia"
  , "Tenés carnet Vigente?"
  , "Tenés Seguro vigente?"
  , "Cena show día sábado 11 (no incluye bebida)"
  , "Tenés alguna restricción alimentaria?"
  , "Moto en la que venís"
  , "Ciudad de donde nos visitas"
  , "Provincia"
  , "Sos alérgico a algo?"
  , "A que sos alérgico?"
  , "Vas a realizar las rodadas" ]

/-- Normalisation used by the exact-match pass:
`h.trim().toLowerCase()`. -/
def normKey (s : String) : String :=
  jsToLower (jsTrim s)

/-- One step of pass 1 of `getOrderedHeaders`: for a preferred entry `d`,
find an exact (trim- and case-insensitive) match among the present headers
and place it if it has not been placed yet. -/
def exactPassStep (headers : List String) (acc : List String) (d : String) :
    List String :=
  match headers.find? (fun h => normKey h == normKey d) with
  | some exact => if memberStr acc exact then acc else acc ++ [exact]
  | none => acc

/-- Fuzzy condition of the grid-with-sticky-columns variant:
`h.toLowerCase().includes(d.toLowerCase()) ||
 d.toLowerCase().includes(h.toLowerCase())`. -/
def fuzzyGrid (d h : String) : Bool :=
  includesJS (jsToLower h) (jsToLower d) || includesJS (jsToLower d) (jsToLower h)

/-- Fuzzy condition of the accordion/mobile variant:
`h.toLowerCase().includes(d.toLowerCase()) ||
 desiredOrder.includes(h.trim().toLowerCase())`. -/
def fuzzyAccordion (_d h : String) : Bool :=
  includesJS (jsToLower h) (jsToLower _d) || memberStr desiredOrder (jsToLower (jsTrim h))

/-- One step of pass 2 of `getOrderedHeaders`: for a preferred entry `d`,
walk the present headers and place every not-yet-placed header satisfying
the fuzzy condition. -/
def fuzzyPassStep (cond : String → String → Bool) (headers : List String)
    (acc : List String) (d : String) : List String :=
  headers.foldl (fun acc h =>
    if !(memberStr acc h) && cond d h then acc ++ [h] else acc) acc

/-- One step of pass 3 of `getOrderedHeaders`: append a remaining header if
it has not been placed. -/
def remainderStep (acc : List String) (h : String) : List String :=
  if memberStr acc h then acc else acc ++ [h]

/-- The shared three-pass structure of `getOrderedHeaders`, parameterised by
the fuzzy condition that distinguishes the two variants. -/
def getOrderedHeadersWith (cond : String → String → Bool)
    (headers : List String) : List String :=
  headers.foldl remainderStep
    (desiredOrder.foldl (fuzzyPassStep cond headers)
      (desiredOrder.foldl (exactPassStep headers) []))

/-- The `getOrderedHeaders` of the grid-with-sticky-columns GuestTable. -/
def getOrderedHeadersGrid : List String → List String :=
  getOrderedHeadersWith fuzzyGrid

/-- The `getOrderedHeaders` of the accordion/mobile GuestTable. -/
def getOrderedHeadersAccordion : List String → List String :=
  getOrderedHeadersWith fuzzyAccordion

/-- Placement of a header when it has not been placed yet: the spec view of
the per-header placement used by all three passes. -/
def placeIfAbsent (acc : List String) (h : String) : List String :=
  if memberStr acc h then acc else acc ++ [h]

/-- Modelled from the spec (section 4.5): the column ordering described by
the specification, written as an explicit ordered-pass algorithm — exact
trim- and case-insensitive matches first, then the fuzzy pass placing any
not-yet-placed header when either string contains the other
(case-insensitive, either direction, first match wins), then the remaining
headers in their original order. -/
def orderHeadersSpec (headers : List String) : List String :=
  let exactPass := desiredOrder.foldl (fun acc d =>
    match headers.find? (fun h => normKey h == normKey d) with
    | some h => placeIfAbsent acc h
    | none => acc) []
  let fuzzyPass := desiredOrder.foldl (fun acc d =>
    headers.foldl (fun acc h =>
      if fuzzyGrid d h then placeIfAbsent acc h else acc) acc) exactPass
  headers.foldl placeIfAbsent fuzzyPass

/-! ## Cell values and rows

JavaScript cell values flowing through the pipeline are strings, numbers,
booleans, or null.  Numbers are modelled by the natural numbers, which
covers every numeric value the claims exercise. -/

/-- A JavaScript cell value. -/
inductive CellValue where
  | vStr (s : String)
  | vNum (n : Nat)
  | vBool (b : Bool)
  | vNull
deriving DecidableEq

/-- Model of `value?.toString()`: `none` when the value is null (optional
chaining yields undefined), otherwise the JavaScript string rendering. -/
def cellToString? : CellValue → Option String
  | .vStr s => some s
  | .vNum n => some (toString n)
  | .vBool true => some "true"
  | .vBool false => some "false"
  | .vNull => none

/-- Total variant of `cellToString?` for call sites where the value is
known not to be null. -/
def cellToStr (v : CellValue) : String :=
  (cellToString? v).getD ""

/-- JavaScript truthiness of a cell value. -/
def isTruthyCell : CellValue → Bool
  | .vStr s => !(s == "")
  | .vNum n => !(n == 0)
  | .vBool b => b
  | .vNull => false

/-- A parsed guest row: a JavaScript object modelled as a key-ordered
association list from column header to cell value. -/
abbrev Row := List (String × CellValue)

/-- Model of `row[key]`: `none` when the key is absent (undefined). -/
def lookupRow (row : Row) (k : String) : Option CellValue :=
  (row.find? (fun kv => kv.1 == k)).map (fun kv => kv.2)

/-- Model of the JavaScript object property write used by object spread:
overwrite in place when the key exists, otherwise append. -/
def objSet (row : Row) (k : String) (v : CellValue) : Row :=
  if row.any (fun kv => kv.1 == k) then
    row.map (fun kv => if kv.1 == k then (k, v) else kv)
  else row ++ [(k, v)]

/-! ## Delimited-text parsing (CSVUploader.processCSVFile)

The repository delegates delimited-text parsing to a third-party parser and
configures it at the call site with `header: true`, `skipEmptyLines: true`,
`dynamicTyping: true`, and `delimitersToGuess: [',', ';', '\t', '|']`.
The parser itself is modelled here: line split, delimiter guess, first line
as headers, positional mapping of fields to headers, and the documented
dynamic-typing conversion (true/false and integer literals; the full
library also converts floats and ISO dates, which no claim exercises). -/

/-- The delimited-text parser configuration. -/
structure PapaConfig where
  header : Bool
  skipEmptyLines : Bool
  dynamicTyping : Bool
  delimitersToGuess : List Char
deriving DecidableEq

/-- The configuration passed by `processCSVFile` in CSVUploader. -/
def repoPapaConfig : PapaConfig :=
  { header := true
  , skipEmptyLines := true
  , dynamicTyping := true
  , delimitersToGuess := [',', ';', '\t', '|'] }

/-- Splits a character list at every occurrence of the delimiter. -/
def splitAux (d : Char) : List Char → List Char → List (List Char)
  | [], cur => [cur.reverse]
  | c :: rest, cur =>
    if c == d then cur.reverse :: splitAux d rest []
    else splitAux d rest (c :: cur)

/-- Splits a character list at every occurrence of the delimiter. -/
def splitOnChar (d : Char) (s : List Char) : List (List Char) :=
  splitAux d s []

/-- Delimiter auto-detection: the first candidate occurring in the first
line, defaulting to the comma. -/
def guessDelimiter (guesses : List Char) (firstLine : String) : Char :=
  match guesses.find? (fun d => firstLine.data.any (fun c => c == d)) with
  | some d => d
  | none => ','

/-- Decimal digit test. -/
def isDigitChar (c : Char) : Bool :=
  48 ≤ c.toNat && c.toNat ≤ 57

/-- Numeric value of a decimal digit character. -/
def digitVal (c : Char) : Nat :=
  c.toNat - 48

/-- Decimal reading of a digit list. -/
def natOfDigits (l : List Char) : Nat :=
  l.foldl (fun n c => n * 10 + digitVal c) 0

/-- The documented dynamic-typing conversion of the delimited-text parser:
true/false literals become booleans, numeric literals become numbers, the
empty field becomes null, and anything else stays a string. -/
def papaDynType (s : String) : CellValue :=
  if s == "true" || s == "TRUE" then .vBool true
  else if s == "false" || s == "FALSE" then .vBool false
  else if !s.data.isEmpty && s.data.all isDigitChar then .vNum (natOfDigits s.data)
  else if s == "" then .vNull
  else .vStr s

/-- Raw parse: header line and positional field-to-header rows, before any
cell typing is applied. -/
def parseCSVRaw (cfg : PapaConfig) (content : String) :
    List String × List (List (String × String)) :=
  let lines := (splitOnChar '\n' content.data).map (fun l => (⟨l⟩ : String))
  let lines := if cfg.skipEmptyLines then lines.filter (fun l => !(l == "")) else lines
  match lines with
  | [] => ([], [])
  | headerLine :: dataLines =>
    let d := guessDelimiter cfg.delimitersToGuess headerLine
    let headers := (splitOnChar d headerLine.data).map (fun f => (⟨f⟩ : String))
    let rows := dataLines.map (fun line =>
      headers.zip ((splitOnChar d line.data).map (fun f => (⟨f⟩ : String))))
    (headers, rows)

/-- Per-cell treatment selected by the configuration: the dynamic-typing
conversion when enabled, the identity (as a string) otherwise. -/
def typedCell (cfg : PapaConfig) (raw : String) : CellValue :=
  if cfg.dynamicTyping then papaDynType raw else .vStr raw

/-- The parse as observed by `processCSVFile`: headers stay strings, data
cells go through the configured per-cell treatment. -/
def parseCSV (cfg : PapaConfig) (content : String) :
    List String × List Row :=
  let raw := parseCSVRaw cfg content
  (raw.1, raw.2.map (fun row => row.map (fun kv => (kv.1, typedCell cfg kv.2))))

/-! ## Persistence (CSVUploader.saveGuestsToSupabase) -/

/-- The header scan of `saveGuestsToSupabase`: a header whose lower-cased
text contains "id", "código", or "codigo". -/
def isIdHeader (header : String) : Bool :=
  includesJS (jsToLower header) "id" ||
  includesJS (jsToLower header) "código" ||
  includesJS (jsToLower header) "codigo"

/-- The record payload constructed per row before insertion. -/
structure GuestInsert where
  guest_id : String
  guest_data : Row
  confirmed : Bool
deriving DecidableEq

/-- One element of `guestsToInsert`: the identifier is the string value of
the first id-like header when that cell is present, non-null and non-empty,
and otherwise the synthesised `guest_{index+1}`. -/
def mkInsert (headers : List String) (row : Row) (index : Nat) : GuestInsert :=
  let fallback := "guest_" ++ toString (index + 1)
  let guestId :=
    match headers.find? isIdHeader with
    | some f =>
      match lookupRow row f with
      | some v =>
        match cellToString? v with
        | some s => if s == "" then fallback else s
        | none => fallback
      | none => fallback
    | none => fallback
  { guest_id := guestId, guest_data := row, confirmed := false }

/-- The indexed map of `data.map((row, index) => ...)` building the insert
payload, with an explicit running index. -/
def guestsToInsertFrom (headers : List String) : Nat → List Row → List GuestInsert
  | _, [] => []
  | index, row :: rest =>
    mkInsert headers row index :: guestsToInsertFrom headers (index + 1) rest

/-- The full insert payload of `saveGuestsToSupabase` (0-based map index,
so the synthesised identifiers are 1-based). -/
def guestsToInsert (data : List Row) (headers : List String) : List GuestInsert :=
  guestsToInsertFrom headers 0 data

/-- A persisted guest record as stored in and loaded from the guests
table. -/
structure GuestRecord where
  id : String
  guest_id : String
  guest_data : Row
  confirmed : Bool
  confirmed_at : Option String
deriving DecidableEq

/-- The placeholder primary key used by the delete filter
`.neq('id', ...)`. -/
def dummyUuid : String :=
  "00000000-0000-0000-0000-000000000000"

/-- The stored record resulting from inserting a payload element; the
primary key is assigned opaquely by the store and is not observed by any
claim, and `confirmed_at` takes its null column default. -/
def toRecord (g : GuestInsert) : GuestRecord :=
  { id := ""
  , guest_id := g.guest_id
  , guest_data := g.guest_data
  , confirmed := g.confirmed
  , confirmed_at := none }

/-- Outcomes reported by the store for the two statements issued by
`saveGuestsToSupabase`; `none` is a success. -/
structure DbOutcome where
  deleteError : Option String
  insertError : Option String
deriving DecidableEq

/-- The user-visible outcome of `saveGuestsToSupabase`: the success toast
with the saved count, or the destructive toast with the error message. -/
inductive SaveOutcome where
  | saved (count : Nat)
  | saveError (msg : String)
deriving DecidableEq

/-- Embedding of `saveGuestsToSupabase`: a delete of every record whose
primary key differs from the placeholder, whose result the code does not
inspect, followed by the bulk insert whose error (when present) is thrown
and caught, producing the destructive toast.  Returns the resulting store
contents and the user-visible outcome. -/
def saveGuestsToSupabase (outcome : DbOutcome) (store : List GuestRecord)
    (data : List Row) (headers : List String) :
    List GuestRecord × SaveOutcome :=
  let store1 :=
    if outcome.deleteError.isSome then store
    else store.filter (fun g => g.id == dummyUuid)
  let inserts := guestsToInsert data headers
  match outcome.insertError with
  | some e => (store1, .saveError e)
  | none => (store1 ++ inserts.map toRecord, .saved inserts.length)

/-! ## Display-side identifier derivation (GuestTable.getGuestId) -/

/-- The fixed exact field names scanned by the display-side
`getGuestId`. -/
def possibleIdFields : List String :=
  ["id", "ID", "Id", "código", "codigo", "Código", "Codigo"]

/-- The loop condition of `getGuestId`: the field is present and its value
is neither null nor the empty string. -/
def usableIdField (row : Row) (f : String) : Bool :=
  match lookupRow row f with
  | some v => !(v == CellValue.vNull) && !(v == CellValue.vStr "")
  | none => false

/-- The exact-field scan and index fallback of `getGuestId`. -/
def getGuestIdScan (row : Row) (index : Nat) : String :=
  match possibleIdFields.find? (usableIdField row) with
  | some f =>
    match lookupRow row f with
    | some v => cellToStr v
    | none => "guest_" ++ toString index
  | none => "guest_" ++ toString index

/-- Embedding of the display-side `getGuestId`: a present truthy
`_guest_id` field wins, then the exact-field scan, then the synthesised
`guest_{index}` with the 0-based index the caller passes. -/
def getGuestId (row : Row) (index : Nat) : String :=
  match lookupRow row "_guest_id" with
  | some v => if isTruthyCell v then cellToStr v else getGuestIdScan row index
  | none => getGuestIdScan row index

/-- The identifiers computed while rendering `filteredData.map((row,
index) => getGuestId(row, index) ...)`: the index is the 0-based position
in the filtered display list. -/
def displayGuestIdsFrom : Nat → List Row → List String
  | _, [] => []
  | i, row :: rest => getGuestId row i :: displayGuestIdsFrom (i + 1) rest

/-- Display-side identifiers of a rendered row list. -/
def displayGuestIds (rows : List Row) : List String :=
  displayGuestIdsFrom 0 rows

/-! ## Confirmation toggle (GuestTable.handleConfirmGuest) -/

/-- The state touched by a toggle: the remote store contents and the local
confirmed-identifier set (a string set, modelled as a duplicate-free
list). -/
structure TableState where
  store : List GuestRecord
  confirmedGuests : List String
deriving DecidableEq

/-- The user-visible outcome of `handleConfirmGuest`: the toast announcing
the new state, or the destructive update-error toast. -/
inductive ToggleOutcome where
  | toggled (nowConfirmed : Bool) (guestId : String)
  | updateError (msg : String)
deriving DecidableEq

/-- Model of toggling membership in the local `Set` of confirmed
identifiers. -/
def toggleSet (s : List String) (x : String) : List String :=
  if memberStr s x then s.filter (fun y => !(y == x)) else s ++ [x]

/-- Embedding of `handleConfirmGuest`: the current state is read from the
local set, the store update sets `confirmed` and `confirmed_at` on every
record matching the identifier (an update matching zero records succeeds
with a null error, per the query interface of the store), and on success
the local set membership is toggled and the success toast shown.  The
injected `updErr` models a store-reported update failure, which is thrown,
caught, and surfaced as the destructive toast with no state change. -/
def handleConfirmGuest (updErr : Option String) (now : String)
    (st : TableState) (guestId : String) : TableState × ToggleOutcome :=
  let isCurrentlyConfirmed := memberStr st.confirmedGuests guestId
  match updErr with
  | some e => (st, .updateError e)
  | none =>
    let newStore := st.store.map (fun g =>
      if g.guest_id == guestId then
        { g with
          confirmed := !isCurrentlyConfirmed
          confirmed_at := if !isCurrentlyConfirmed then some now else none }
      else g)
    ({ store := newStore, confirmedGuests := toggleSet st.confirmedGuests guestId },
     .toggled (!isCurrentlyConfirmed) guestId)

/-! ## Search, display precedence, and view states (GuestTable) -/

/-- The row match of the search filter: some value of the row object has a
string representation containing the search term, case-insensitively; null
values are skipped by the optional chaining. -/
def rowMatches (term : String) (row : Row) : Bool :=
  row.any (fun kv =>
    match cellToString? kv.2 with
    | some s => includesJS (jsToLower s) (jsToLower term)
    | none => false)

/-- Embedding of `filteredData`: a search term that trims to the empty
string returns the current rows unfiltered, any other term keeps the rows
it matches. -/
def filteredData (currentRows : List Row) (searchTerm : String) : List Row :=
  if jsTrim searchTerm == "" then currentRows
  else currentRows.filter (rowMatches searchTerm)

/-- The three render states of the grid GuestTable: the empty-dataset card,
the no-results card, and the populated table. -/
inductive TableView where
  | emptyDataset
  | noResults (term : String)
  | results (rows : List Row)
deriving DecidableEq

/-- Embedding of the render dispatch: the empty-dataset card when there are
no current rows, the no-results card when the filter is empty and the term
is truthy, and otherwise the table over the filtered rows. -/
def guestTableView (currentRows : List Row) (searchTerm : String) : TableView :=
  if currentRows.isEmpty then .emptyDataset
  else if (filteredData currentRows searchTerm).isEmpty && !(searchTerm == "") then
    .noResults searchTerm
  else .results (filteredData currentRows searchTerm)

/-- Embedding of `currentData`: when the remote store has at least one row,
the display rows are the remote `guest_data` objects with the two internal
fields spread in; otherwise the locally parsed rows. -/
def currentData (supabaseGuests : List GuestRecord) (data : List Row) : List Row :=
  if supabaseGuests.isEmpty then data
  else supabaseGuests.map (fun g =>
    objSet (objSet g.guest_data "_supabase_id" (.vStr g.id)) "_guest_id" (.vStr g.guest_id))

/-! ## Concrete fixtures used by witnesses and counterexamples -/

/-- A concrete parsed row with a single name column. -/
def exRowAna : Row := [("Nombre", CellValue.vStr "Ana")]

/-- A concrete stored record with an ordinary (non-placeholder) primary
key. -/
def exRecord : GuestRecord :=
  { id := "u1", guest_id := "g1", guest_data := [], confirmed := false
  , confirmed_at := none }

/-- A concrete stored record whose primary key contains text occurring in
no visible column. -/
def exHiddenRecord : GuestRecord :=
  { id := "zz-42", guest_id := "gA", guest_data := exRowAna, confirmed := false
  , confirmed_at := none }

/-! ## Helper lemmas -/

theorem memberStr_iff (l : List String) (x : String) :
    memberStr l x = true ↔ x ∈ l := by
  simp [memberStr, List.any_eq_true]

theorem memberStr_false_iff (l : List String) (x : String) :
    memberStr l x = false ↔ x ∉ l := by
  rw [Bool.eq_false_iff, Ne, memberStr_iff]

theorem nodup_snoc {l : List String} {a : String} (h : l.Nodup) (ha : a ∉ l) :
    (l ++ [a]).Nodup := by
  simp [List.nodup_append, h, ha]

theorem foldl_mono (l : List String) (step : List String → String → List String)
    (hmono : ∀ acc x, x ∈ l → acc ⊆ step acc x) :
    ∀ acc, acc ⊆ List.foldl step acc l := by
  induction l with
  | nil => intro acc; exact fun a ha => ha
  | cons x xs ih =>
    intro acc
    have h1 : acc ⊆ step acc x := hmono acc x (List.mem_cons_self x xs)
    have h2 : step acc x ⊆ List.foldl step (step acc x) xs :=
      ih (fun acc y hy => hmono acc y (List.mem_cons_of_mem x hy)) (step acc x)
    exact h1.trans h2

theorem foldl_inv (l : List String) (step : List String → String → List String)
    (U : List String)
    (hinv : ∀ acc x, x ∈ l → acc.Nodup → acc ⊆ U →
      ((step acc x).Nodup ∧ step acc x ⊆ U)) :
    ∀ acc, acc.Nodup → acc ⊆ U →
      ((List.foldl step acc l).Nodup ∧ List.foldl step acc l ⊆ U) := by
  induction l with
  | nil => intro acc h1 h2; exact ⟨h1, h2⟩
  | cons x xs ih =>
    intro acc h1 h2
    have hx := hinv acc x (List.mem_cons_self x xs) h1 h2
    exact ih (fun acc y hy => hinv acc y (List.mem_cons_of_mem x hy)) (step acc x) hx.1 hx.2

theorem exactPassStep_mono (headers acc : List String) (d : String) :
    acc ⊆ exactPassStep headers acc d := by
  unfold exactPassStep
  cases hf : headers.find? (fun h => normKey h == normKey d) with
  | none => exact fun a ha => ha
  | some e =>
    by_cases hm : memberStr acc e = true
    · simp [hm]
    · simp only [Bool.not_eq_true] at hm
      simp [hm]

theorem exactPassStep_inv (headers acc : List String) (d : String)
    (h1 : acc.Nodup) (h2 : acc ⊆ headers) :
    (exactPassStep headers acc d).Nodup ∧ exactPassStep headers acc d ⊆ headers := by
  unfold exactPassStep
  cases hf : headers.find? (fun h => normKey h == normKey d) with
  | none => exact ⟨h1, h2⟩
  | some e =>
    have he : e ∈ headers := List.mem_of_find?_eq_some hf
    by_cases hm : memberStr acc e = true
    · simp [hm]; exact ⟨h1, h2⟩
    · simp only [Bool.not_eq_true] at hm
      simp only [hm, Bool.false_eq_true, if_false]
      refine ⟨nodup_snoc h1 ((memberStr_false_iff acc e).1 hm), ?_⟩
      intro a ha
      rcases List.mem_append.1 ha with h | h
      · exact h2 h
      · rcases List.mem_singleton.1 h with rfl
        exact he

theorem fuzzyPassStep_mono (cond : String → String → Bool)
    (headers acc : List String) (d : String) :
    acc ⊆ fuzzyPassStep cond headers acc d := by
  unfold fuzzyPassStep
  refine foldl_mono headers _ (fun acc h _ => ?_) acc
  by_cases hc : (!(memberStr acc h) && cond d h) = true
  · simp [hc]
  · simp only [Bool.not_eq_true] at hc
    simp [hc]

theorem fuzzyPassStep_inv (cond : String → String → Bool)
    (headers acc : List String) (d : String)
    (h1 : acc.Nodup) (h2 : acc ⊆ headers) :
    (fuzzyPassStep cond headers acc d).Nodup ∧
      fuzzyPassStep cond headers acc d ⊆ headers := by
  unfold fuzzyPassStep
  refine foldl_inv headers _ headers (fun acc h hh ha1 ha2 => ?_) acc h1 h2
  by_cases hc : (!(memberStr acc h) && cond d h) = true
  · have hnm : memberStr acc h = false := by
      rcases Bool.and_eq_true_iff.1 hc with ⟨hl, _⟩
      simpa using hl
    simp only [hc, if_true]
    refine ⟨nodup_snoc ha1 ((memberStr_false_iff acc h).1 hnm), ?_⟩
    intro a ha
    rcases List.mem_append.1 ha with h3 | h3
    · exact ha2 h3
    · rcases List.mem_singleton.1 h3 with rfl
      exact hh
  · simp only [Bool.not_eq_true] at hc
    simp [hc]
    exact ⟨ha1, ha2⟩

theorem remainderStep_mono (acc : List String) (h : String) :
    acc ⊆ remainderStep acc h := by
  unfold remainderStep
  by_cases hm : memberStr acc h = true
  · simp [hm]
  · simp only [Bool.not_eq_true] at hm
    simp [hm]

theorem remainderStep_inv (headers acc : List String) (h : String)
    (hh : h ∈ headers) (h1 : acc.Nodup) (h2 : acc ⊆ headers) :
    (remainderStep acc h).Nodup ∧ remainderStep acc h ⊆ headers := by
  unfold remainderStep
  by_cases hm : memberStr acc h = true
  · simp [hm]; exact ⟨h1, h2⟩
  · simp only [Bool.not_eq_true] at hm
    simp only [hm, Bool.false_eq_true, if_false]
    refine ⟨nodup_snoc h1 ((memberStr_false_iff acc h).1 hm), ?_⟩
    intro a ha
    rcases List.mem_append.1 ha with h3 | h3
    · exact h2 h3
    · rcases List.mem_singleton.1 h3 with rfl
      exact hh

theorem remainder_complete (l : List String) :
    ∀ acc, ∀ h ∈ l, h ∈ List.foldl remainderStep acc l := by
  induction l with
  | nil => intro acc h hh; cases hh
  | cons x xs ih =>
    intro acc h hh
    rcases List.mem_cons.1 hh with rfl | hmem
    · have hx : h ∈ remainderStep acc h := by
        unfold remainderStep
        by_cases hm : memberStr acc h = true
        · simp [hm]; exact (memberStr_iff acc h).1 hm
        · simp only [Bool.not_eq_true] at hm
          simp [hm]
      have hmono : remainderStep acc h ⊆ List.foldl remainderStep (remainderStep acc h) xs :=
        foldl_mono xs _ (fun a y _ => remainderStep_mono a y) _
      exact hmono hx
    · exact ih (remainderStep acc x) h hmem

theorem getOrderedHeadersWith_perm (cond : String → String → Bool)
    (headers : List String) (hN : headers.Nodup) :
    (getOrderedHeadersWith cond headers).Perm headers := by
  unfold getOrderedHeadersWith
  have inv1 := foldl_inv desiredOrder (exactPassStep headers) headers
    (fun acc d _ h1 h2 => exactPassStep_inv headers acc d h1 h2)
    [] List.nodup_nil (List.nil_subset headers)
  have inv2 := foldl_inv desiredOrder (fuzzyPassStep cond headers) headers
    (fun acc d _ h1 h2 => fuzzyPassStep_inv cond headers acc d h1 h2)
    _ inv1.1 inv1.2
  have inv3 := foldl_inv headers remainderStep headers
    (fun acc h hh h1 h2 => remainderStep_inv headers acc h hh h1 h2)
    _ inv2.1 inv2.2
  have hcomp : headers ⊆ List.foldl remainderStep
      (desiredOrder.foldl (fuzzyPassStep cond headers)
        (desiredOrder.foldl (exactPassStep headers) [])) headers :=
    fun h hh => remainder_complete headers _ h hh
  exact List.Subperm.antisymm (List.Nodup.subperm inv3.1 inv3.2)
    (List.Nodup.subperm hN hcomp)

/-! ## Claim C1 -/

/-- C1: for every duplicate-free list of present column headers, both
implementations of the column orderer return a permutation of the input —
every input header appears in the output exactly once, with no header
dropped and no header duplicated, regardless of the content of the fixed
preferred-order list.  Determinism is immediate since the orderer is a pure
function of its input. -/
theorem getOrderedHeaders_permutes (headers : List String) (hN : headers.Nodup) :
    (getOrderedHeadersGrid headers).Perm headers ∧
    (getOrderedHeadersAccordion headers).Perm headers :=
  ⟨getOrderedHeadersWith_perm fuzzyGrid headers hN,
   getOrderedHeadersWith_perm fuzzyAccordion headers hN⟩

/-- Witness for C1 at a concrete header list. -/
theorem getOrderedHeaders_permutes_witness :
    (getOrderedHeadersGrid ["Nombre", "Equipo"]).Perm ["Nombre", "Equipo"] ∧
    (getOrderedHeadersAccordion ["Nombre", "Equipo"]).Perm ["Nombre", "Equipo"] :=
  getOrderedHeaders_permutes ["Nombre", "Equipo"] (by decide)

/-! ## Claim C5 -/

set_option maxRecDepth 100000 in
/-- C5 counterexample: the two GuestTable implementations of the column
orderer do not return equal ordered sequences — on the header list
["X", "DN"] the grid variant places "DN" through the substring pass
(the preferred entry "DNI" contains "DN") while the accordion variant,
whose corresponding branch instead tests membership of the lower-cased
header in the desired-order list, places neither, so the outputs differ. -/
theorem getOrderedHeaders_variants_differ :
    getOrderedHeadersGrid ["X", "DN"] = ["DN", "X"] ∧
    getOrderedHeadersAccordion ["X", "DN"] = ["X", "DN"] ∧
    getOrderedHeadersGrid ["X", "DN"] ≠ getOrderedHeadersAccordion ["X", "DN"] := by
  refine ⟨by decide, by decide, by decide⟩

/-- C5 (amended): for every list of present headers the
grid-with-sticky-columns variant realizes the section 4.5 ordering — exact
pass, then the fuzzy pass placing a not-yet-placed header when either
string contains the other (case-insensitive substring match in either
direction, first match wins), then the remainder; the accordion variant
does not realize it and disagrees with the grid variant on some inputs. -/
theorem gridOrderer_realizes_spec (headers : List String) :
    getOrderedHeadersGrid headers = orderHeadersSpec headers := by
  have hstep : fuzzyPassStep fuzzyGrid headers =
      (fun acc d => headers.foldl (fun acc h =>
        if fuzzyGrid d h then placeIfAbsent acc h else acc) acc) := by
    funext acc d
    unfold fuzzyPassStep
    have hinner : (fun (acc : List String) (h : String) =>
        if !(memberStr acc h) && fuzzyGrid d h then acc ++ [h] else acc) =
        (fun acc h => if fuzzyGrid d h then placeIfAbsent acc h else acc) := by
      funext a h
      by_cases hm : memberStr a h = true <;> by_cases hc : fuzzyGrid d h = true <;>
        simp [placeIfAbsent, hm, hc]
    rw [hinner]
  show getOrderedHeadersWith fuzzyGrid headers = orderHeadersSpec headers
  unfold getOrderedHeadersWith orderHeadersSpec
  rw [hstep]
  rfl

/-! ## Claim C2 -/

/-- C2 counterexample: parsing the two-line delimited-text upload
"h" / "123" with the configuration the uploader passes yields the numeric
cell 123, not the string cell "123" — the cell value is not preserved
exactly as given in the file. -/
theorem parseCSV_autotypes_counterexample :
    (parseCSV repoPapaConfig "h\n123").2 = [[("h", CellValue.vNum 123)]] ∧
    [[("h", CellValue.vNum 123)]] ≠ [[("h", CellValue.vStr "123")]] := by
  refine ⟨by decide, by decide⟩

/-- C2 (amended): for every delimited-text upload, parsing auto-types the
cell values — the uploader enables dynamic typing at the call site, so
every parsed cell is the dynamic-typing conversion of the raw field text
(boolean and numeric literals are converted away from their string
representation) rather than the string exactly as given in the file. -/
theorem parseCSV_applies_dynamicTyping (content : String) :
    (parseCSV repoPapaConfig content).2 =
      (parseCSVRaw repoPapaConfig content).2.map
        (fun row => row.map (fun kv => (kv.1, papaDynType kv.2))) := by
  unfold parseCSV
  rfl

/-! ## Claim C3 -/

theorem guestsToInsertFrom_ids_fallback (headers : List String)
    (hh : headers.find? isIdHeader = none) :
    ∀ (data : List Row) (i : Nat),
      (guestsToInsertFrom headers i data).map GuestInsert.guest_id =
        (List.range data.length).map (fun n => "guest_" ++ toString (i + n + 1)) := by
  intro data
  induction data with
  | nil => intro i; rfl
  | cons row rest ih =>
    intro i
    simp only [guestsToInsertFrom, List.map_cons, List.length_cons]
    rw [List.range_succ_eq_map, List.map_cons, List.map_map]
    refine List.cons_eq_cons.mpr ⟨?_, ?_⟩
    · unfold mkInsert
      rw [hh]
    · rw [ih (i + 1)]
      refine List.map_congr_left (fun n _ => ?_)
      simp only [Function.comp_apply]
      have harith : i + 1 + n + 1 = i + (n + 1) + 1 := by omega
      rw [harith]

theorem displayGuestIdsFrom_fallback :
    ∀ (rows : List Row) (i : Nat),
      (∀ row ∈ rows, lookupRow row "_guest_id" = none ∧
        possibleIdFields.find? (usableIdField row) = none) →
      displayGuestIdsFrom i rows =
        (List.range rows.length).map (fun n => "guest_" ++ toString (i + n)) := by
  intro rows
  induction rows with
  | nil => intro i _; rfl
  | cons row rest ih =>
    intro i hr
    have hhead := hr row (List.mem_cons_self row rest)
    simp only [displayGuestIdsFrom, List.length_cons]
    rw [List.range_succ_eq_map, List.map_cons, List.map_map]
    refine List.cons_eq_cons.mpr ⟨?_, ?_⟩
    · unfold getGuestId getGuestIdScan
      rw [hhead.1, hhead.2]
      simp
    · rw [ih (i + 1) (fun r hrr => hr r (List.mem_cons_of_mem row hrr))]
      refine List.map_congr_left (fun n _ => ?_)
      simp only [Function.comp_apply]
      have harith : i + 1 + n = i + (n + 1) := by omega
      rw [harith]

/-- C3 counterexample: with headers ["Nombre"] only, the persistence path
gives the first row the identifier "guest_1" while the display path, which
uses the 0-based position in the filtered display list, gives it
"guest_0" — the same rule does not govern both paths, and the first row's
display identifier is not "guest_1". -/
theorem guestId_display_counterexample :
    displayGuestIds [exRowAna] = ["guest_0"] ∧
    (guestsToInsert [exRowAna] ["Nombre"]).map GuestInsert.guest_id = ["guest_1"] ∧
    ("guest_0" : String) ≠ "guest_1" := by
  refine ⟨by decide, by decide, by decide⟩

/-- C3 (amended): the two identifier derivations differ.  The persistence
path scans headers case-insensitively for one containing "id", "código" or
"codigo" and falls back to guest_{n} with the 1-based position among parsed
rows; the display path first uses a present truthy _guest_id field, then
the exact field names id, ID, Id, código, codigo, Código, Codigo, and falls
back to guest_{i} with the 0-based position in the filtered display list —
so with headers ["Nombre"] only the first row persists as "guest_1" but
displays as "guest_0".  Stated here for every batch in which neither path
finds an identifier field. -/
theorem guestId_rule_paths (data : List Row) (headers : List String)
    (hh : headers.find? isIdHeader = none)
    (hr : ∀ row ∈ data, lookupRow row "_guest_id" = none ∧
      possibleIdFields.find? (usableIdField row) = none) :
    (guestsToInsert data headers).map GuestInsert.guest_id =
      (List.range data.length).map (fun n => "guest_" ++ toString (n + 1)) ∧
    displayGuestIds data =
      (List.range data.length).map (fun n => "guest_" ++ toString n) := by
  constructor
  · rw [guestsToInsert, guestsToInsertFrom_ids_fallback headers hh data 0]
    exact List.map_congr_left (fun n _ => by simp)
  · rw [displayGuestIds, displayGuestIdsFrom_fallback data 0 hr]
    exact List.map_congr_left (fun n _ => by simp)

/-- Witness for C3 (amended) at the concrete one-row name-only batch. -/
theorem guestId_rule_paths_witness :
    (guestsToInsert [exRowAna] ["Nombre"]).map GuestInsert.guest_id =
      (List.range 1).map (fun n => "guest_" ++ toString (n + 1)) ∧
    displayGuestIds [exRowAna] =
      (List.range 1).map (fun n => "guest_" ++ toString n) :=
  guestId_rule_paths [exRowAna] ["Nombre"] (by decide) (by decide)

/-! ## Claim C4 -/

theorem guestsToInsertFrom_length (headers : List String) :
    ∀ (data : List Row) (i : Nat),
      (guestsToInsertFrom headers i data).length = data.length := by
  intro data
  induction data with
  | nil => intro i; rfl
  | cons row rest ih =>
    intro i
    simp [guestsToInsertFrom, ih (i + 1)]

theorem guestsToInsertFrom_confirmed (headers : List String) :
    ∀ (data : List Row) (i : Nat) (g : GuestInsert),
      g ∈ guestsToInsertFrom headers i data → g.confirmed = false := by
  intro data
  induction data with
  | nil => intro i g hg; cases hg
  | cons row rest ih =>
    intro i g hg
    rcases List.mem_cons.1 hg with rfl | hmem
    · rfl
    · exact ih (i + 1) g hmem

theorem guestsToInsertFrom_data (headers : List String) :
    ∀ (data : List Row) (i : Nat),
      (guestsToInsertFrom headers i data).map GuestInsert.guest_data = data := by
  intro data
  induction data with
  | nil => intro i; rfl
  | cons row rest ih =>
    intro i
    simp [guestsToInsertFrom, ih (i + 1)]
    rfl

/-- C4: for every valid upload (both store statements succeed, and the
store holds no record carrying the placeholder primary key), the store
contents after the full replace consist of exactly one record per
post-normalization row, every persisted record has confirmed = false and
guest_data equal to its source row, and the success toast reports the row
count. -/
theorem replaceAll_persists_rows (data : List Row) (headers : List String)
    (store : List GuestRecord)
    (hids : ∀ g ∈ store, ¬ g.id = dummyUuid) :
    (saveGuestsToSupabase ⟨none, none⟩ store data headers).1.length = data.length ∧
    (∀ r ∈ (saveGuestsToSupabase ⟨none, none⟩ store data headers).1,
      r.confirmed = false) ∧
    (saveGuestsToSupabase ⟨none, none⟩ store data headers).1.map
      GuestRecord.guest_data = data ∧
    (saveGuestsToSupabase ⟨none, none⟩ store data headers).2 =
      SaveOutcome.saved data.length := by
  have hfil : store.filter (fun g => g.id == dummyUuid) = [] :=
    List.filter_eq_nil_iff.mpr (fun g hg => by simpa using hids g hg)
  unfold saveGuestsToSupabase
  simp only [Option.isSome_none, Bool.false_eq_true, if_false, hfil,
    List.nil_append]
  refine ⟨?_, ?_, ?_, ?_⟩
  · simp [guestsToInsert, guestsToInsertFrom_length]
  · intro r hr
    rcases List.mem_map.1 hr with ⟨g, hg, rfl⟩
    exact guestsToInsertFrom_confirmed headers data 0 g hg
  · rw [List.map_map]
    have hcomp : GuestRecord.guest_data ∘ toRecord = GuestInsert.guest_data := by
      funext g; rfl
    rw [hcomp]
    exact guestsToInsertFrom_data headers data 0
  · simp [guestsToInsert, guestsToInsertFrom_length]

/-- Witness for C4 at a concrete one-row upload over a one-record store. -/
theorem replaceAll_persists_rows_witness :
    (saveGuestsToSupabase ⟨none, none⟩ [exRecord] [exRowAna] ["Nombre"]).1.length = 1 ∧
    (∀ r ∈ (saveGuestsToSupabase ⟨none, none⟩ [exRecord] [exRowAna] ["Nombre"]).1,
      r.confirmed = false) ∧
    (saveGuestsToSupabase ⟨none, none⟩ [exRecord] [exRowAna] ["Nombre"]).1.map
      GuestRecord.guest_data = [exRowAna] ∧
    (saveGuestsToSupabase ⟨none, none⟩ [exRecord] [exRowAna] ["Nombre"]).2 =
      SaveOutcome.saved 1 :=
  replaceAll_persists_rows [exRowAna] ["Nombre"] [exRecord] (by decide)

/-! ## Claim C6 -/

/-- C6 counterexample: when the delete of the existing records fails but
the insert succeeds, the save completes with the success toast — the
delete failure is silently swallowed, not surfaced as a persistence
error. -/
theorem replaceAll_delete_error_swallowed :
    (saveGuestsToSupabase ⟨some "delete failed", none⟩ [exRecord] [exRowAna]
      ["Nombre"]).2 = SaveOutcome.saved 1 := by
  decide

/-- C6 (amended): the save surfaces a distinct persistence error with the
underlying cause exactly when the insert fails; a failure of the delete
alone is never checked and the save still reports success. -/
theorem replaceAll_error_surfacing (outcome : DbOutcome)
    (store : List GuestRecord) (data : List Row) (headers : List String) :
    (∀ e, outcome.insertError = some e →
      (saveGuestsToSupabase outcome store data headers).2 =
        SaveOutcome.saveError e) ∧
    (outcome.insertError = none →
      (saveGuestsToSupabase outcome store data headers).2 =
        SaveOutcome.saved (guestsToInsert data headers).length) := by
  constructor
  · intro e he
    unfold saveGuestsToSupabase
    rw [he]
  · intro he
    unfold saveGuestsToSupabase
    rw [he]

/-- Witness for C6 (amended): a concrete failing insert is surfaced with
its cause, and a concrete save with a failing delete but successful insert
reports success. -/
theorem replaceAll_error_surfacing_witness :
    (saveGuestsToSupabase ⟨none, some "boom"⟩ [exRecord] [exRowAna] ["Nombre"]).2 =
      SaveOutcome.saveError "boom" ∧
    (saveGuestsToSupabase ⟨some "down", none⟩ [] [exRowAna] ["Nombre"]).2 =
      SaveOutcome.saved (guestsToInsert [exRowAna] ["Nombre"]).length :=
  ⟨(replaceAll_error_surfacing ⟨none, some "boom"⟩ [exRecord] [exRowAna]
      ["Nombre"]).1 "boom" rfl,
   (replaceAll_error_surfacing ⟨some "down", none⟩ [] [exRowAna]
      ["Nombre"]).2 rfl⟩

/-! ## Claim C7 -/

theorem toggleSet_member_self (s : List String) (x : String) :
    memberStr (toggleSet s x) x = !(memberStr s x) := by
  unfold toggleSet
  by_cases hm : memberStr s x = true
  · rw [hm, if_pos rfl, Bool.not_true]
    rw [memberStr_false_iff]
    intro hmem
    have := (List.mem_filter.1 hmem).2
    simp at this
  · have hm2 : memberStr s x = false := by
      cases h : memberStr s x
      · rfl
      · exact absurd h hm
    rw [hm2, Bool.not_false]
    rw [if_neg (by simp [hm2])]
    exact (memberStr_iff _ x).2 (List.mem_append_right s (List.mem_singleton.2 rfl))

/-- C7: for a guest identifier with a matching record, when the local
confirmed set agrees with the stored confirmed flags for that identifier
and the store reports no update error, one toggle flips the confirmed flag
of every matching record — setting confirmed_at to the current time when
transitioning to confirmed and to null when transitioning away — and two
sequential toggles return every matching record to its original confirmed
value. -/
theorem toggleConfirmed_flips (st : TableState) (gid t1 t2 : String)
    (_hex : ∃ g, g ∈ st.store ∧ g.guest_id = gid)
    (_hsync : ∀ g ∈ st.store, g.guest_id = gid →
      g.confirmed = memberStr st.confirmedGuests gid) :
    (∀ g ∈ ((handleConfirmGuest none t1 st gid).1).store, g.guest_id = gid →
      (g.confirmed = !(memberStr st.confirmedGuests gid) ∧
       g.confirmed_at =
         if memberStr st.confirmedGuests gid then none else some t1)) ∧
    (∀ g ∈ ((handleConfirmGuest none t2
        (handleConfirmGuest none t1 st gid).1 gid).1).store,
      g.guest_id = gid → g.confirmed = memberStr st.confirmedGuests gid) := by
  constructor
  · intro g hg hgid
    rcases List.mem_map.1 hg with ⟨g1, _, rfl⟩
    by_cases hb : (g1.guest_id == gid) = true
    · rw [if_pos hb]
      refine ⟨rfl, ?_⟩
      by_cases hc : memberStr st.confirmedGuests gid = true
      · simp [hc]
      · have hc2 : memberStr st.confirmedGuests gid = false := by
          cases h : memberStr st.confirmedGuests gid
          · rfl
          · exact absurd h hc
        simp [hc2]
    · rw [if_neg hb] at hgid ⊢
      exact absurd (by simp [hgid]) hb
  · intro g hg hgid
    rcases List.mem_map.1 hg with ⟨g1, _, rfl⟩
    by_cases hb : (g1.guest_id == gid) = true
    · rw [if_pos hb]
      show (!(memberStr (toggleSet st.confirmedGuests gid) gid)) =
        memberStr st.confirmedGuests gid
      rw [toggleSet_member_self, Bool.not_not]
    · rw [if_neg hb] at hgid ⊢
      exact absurd (by simp [hgid]) hb

/-- Witness for C7 at a concrete one-record state with the local set in
sync. -/
theorem toggleConfirmed_flips_witness :
    (∀ g ∈ ((handleConfirmGuest none "t1" ⟨[exRecord], []⟩ "g1").1).store,
      g.guest_id = "g1" →
      (g.confirmed = !(memberStr ([] : List String) "g1") ∧
       g.confirmed_at =
         if memberStr ([] : List String) "g1" then none else some "t1")) ∧
    (∀ g ∈ ((handleConfirmGuest none "t2"
        (handleConfirmGuest none "t1" ⟨[exRecord], []⟩ "g1").1 "g1").1).store,
      g.guest_id = "g1" → g.confirmed = memberStr ([] : List String) "g1") :=
  toggleConfirmed_flips ⟨[exRecord], []⟩ "g1" "t1" "t2"
    ⟨exRecord, by decide, rfl⟩ (by decide)

/-! ## Claim C8 -/

/-- C8 counterexample: toggling an identifier with no matching record in
the store does not fail — on the empty store, toggling "g1" succeeds with
the confirmed toast and adds "g1" to the local confirmed set, so the call
changes a local confirmed-set entry instead of failing. -/
theorem toggle_missing_guest_counterexample :
    handleConfirmGuest none "t" ⟨[], []⟩ "g1" =
      (⟨[], ["g1"]⟩, ToggleOutcome.toggled true "g1") := by
  decide

/-- C8 (amended): for a guest identifier with no matching record, the
toggle does not fail: the zero-match store update reports success, no
stored record changes, but the local confirmed-set entry for the
identifier is still toggled and the success toast is shown. -/
theorem toggle_missing_guest (st : TableState) (gid t : String)
    (hmiss : ∀ g ∈ st.store, g.guest_id ≠ gid) :
    ((handleConfirmGuest none t st gid).1).store = st.store ∧
    ((handleConfirmGuest none t st gid).1).confirmedGuests =
      toggleSet st.confirmedGuests gid ∧
    (handleConfirmGuest none t st gid).2 =
      ToggleOutcome.toggled (!(memberStr st.confirmedGuests gid)) gid := by
  refine ⟨?_, rfl, rfl⟩
  have hmap : ∀ g ∈ st.store,
      (if g.guest_id == gid then
        { g with
          confirmed := !(memberStr st.confirmedGuests gid)
          confirmed_at :=
            if !(memberStr st.confirmedGuests gid) then some t else none }
      else g) = g := by
    intro g hg
    rw [if_neg (by simpa using hmiss g hg)]
  show st.store.map _ = st.store
  rw [List.map_congr_left hmap]
  simp

/-- Witness for C8 (amended) at a concrete store without the toggled
identifier. -/
theorem toggle_missing_guest_witness :
    ((handleConfirmGuest none "t" ⟨[exRecord], []⟩ "gX").1).store = [exRecord] ∧
    ((handleConfirmGuest none "t" ⟨[exRecord], []⟩ "gX").1).confirmedGuests =
      toggleSet [] "gX" ∧
    (handleConfirmGuest none "t" ⟨[exRecord], []⟩ "gX").2 =
      ToggleOutcome.toggled (!(memberStr [] "gX")) "gX" :=
  toggle_missing_guest ⟨[exRecord], []⟩ "gX" "t" (by decide)

/-! ## Claim C9 -/

/-- C9 counterexample: with the single row having value "a" and the
whitespace search term " ", the filter returns the row although no column
string representation contains the term, and the view is the populated
table rather than the empty-result state — the emptiness test trims the
term, so the claimed inclusion equivalence and the claimed empty result
both fail for whitespace-only terms. -/
theorem search_whitespace_counterexample :
    filteredData [[("h", CellValue.vStr "a")]] " " =
      [[("h", CellValue.vStr "a")]] ∧
    rowMatches " " [("h", CellValue.vStr "a")] = false ∧
    guestTableView [[("h", CellValue.vStr "a")]] " " =
      TableView.results [[("h", CellValue.vStr "a")]] := by
  refine ⟨by decide, by decide, by decide⟩

/-- C9 (amended): the emptiness test trims the search term: a term that
trims to the empty string (so also the empty term itself) returns all rows
unfiltered; for any term with non-blank content a row is included exactly
when some non-null column value string representation contains the
untrimmed term case-insensitively; such a term matching no cell of a
non-empty dataset renders the distinguished no-results state; and the
empty-dataset state renders exactly when there is no data at all. -/
theorem search_filter_rules (data : List Row) (term : String) :
    (jsTrim term = "" → filteredData data term = data) ∧
    (jsTrim term ≠ "" → ∀ row, row ∈ filteredData data term ↔
      row ∈ data ∧ rowMatches term row = true) ∧
    (data ≠ [] → jsTrim term ≠ "" → filteredData data term = [] →
      guestTableView data term = TableView.noResults term) ∧
    (guestTableView data term = TableView.emptyDataset ↔ data = []) := by
  refine ⟨?_, ?_, ?_, ?_⟩
  · intro h
    unfold filteredData
    rw [if_pos (by simp [h])]
  · intro h row
    unfold filteredData
    rw [if_neg (by simpa using h)]
    exact List.mem_filter
  · intro hd ht hf
    have htne : term ≠ "" := fun he => ht (by rw [he]; rfl)
    unfold guestTableView
    rw [if_neg (by simpa [List.isEmpty_iff] using hd)]
    rw [if_pos (by rw [hf]; simp [htne])]
  · constructor
    · intro h
      by_cases hd : data.isEmpty = true
      · exact List.isEmpty_iff.1 hd
      · exfalso
        unfold guestTableView at h
        rw [if_neg hd] at h
        by_cases hc : ((filteredData data term).isEmpty && !(term == "")) = true
        · rw [if_pos hc] at h
          exact TableView.noConfusion h
        · rw [if_neg hc] at h
          exact TableView.noConfusion h
    · intro h
      subst h
      rfl

/-- Witness for C9 (amended): concrete instances of the inclusion
equivalence, the no-results state for an unmatched term, and the
empty-dataset equivalence. -/
theorem search_filter_rules_witness :
    (exRowAna ∈ filteredData [exRowAna] "an" ↔
      exRowAna ∈ [exRowAna] ∧ rowMatches "an" exRowAna = true) ∧
    guestTableView [exRowAna] "zz" = TableView.noResults "zz" ∧
    (guestTableView [exRowAna] "an" = TableView.emptyDataset ↔
      ([exRowAna] : List Row) = []) :=
  ⟨(search_filter_rules [exRowAna] "an").2.1 (by decide) exRowAna,
   (search_filter_rules [exRowAna] "zz").2.2.1 (by decide) (by decide) (by decide),
   (search_filter_rules [exRowAna] "an").2.2.2⟩

/-! ## Claim C10 -/

/-- C10: with a non-empty remote store the rows presented to display and
search are the remote guest_data objects with the two internal fields
_supabase_id and _guest_id spread in, and the search filter scans every
value of the augmented object — concretely, the term "zz" occurs only in
the store primary key "zz-42" and in no visible column, yet the row
matches the search and survives the filter. -/
theorem search_matches_hidden_fields :
    currentData [exHiddenRecord] [] =
      [exRowAna ++
        [("_supabase_id", CellValue.vStr "zz-42"),
         ("_guest_id", CellValue.vStr "gA")]] ∧
    filteredData (currentData [exHiddenRecord] []) "zz" =
      currentData [exHiddenRecord] [] ∧
    rowMatches "zz" exRowAna = false := by
  refine ⟨by decide, by decide, by decide⟩

end MotoEvento
